import Mathlib

/-!
# MediRound overdue-check computation and time-bucketing engine

A shallow embedding of the core logic of the MediRound dashboard
(`src/App.jsx`): `parseCheckTime`, `getCheckInsArray`, `getLastCheck`,
`isPatientOverdue`, the slot-construction loop of `RoundingGraph`
(`buildSlots`), and `hasCheckInInSlot`.

Timestamps are epoch instants modelled as `Int` (milliseconds).  The
general-purpose date parser (`new Date(string)`) is implementation-defined,
so it is a parameter `dp : List Char → Option Int` of every function that
parses; `none` stands for an invalid date (`isNaN(d.getTime())`).
JavaScript strings are `List Char`.  The local-time truncation performed by
`Date.prototype.setMinutes(0,0,0)` is modelled with an explicit fixed local
offset (milliseconds added to the UTC epoch to obtain local wall-clock
time).  The fractional-minute quotient of `getLastCheck` is computed in `ℚ`
(exact arithmetic).
-/

namespace MediRound

/-! ## String cleaning (`parseCheckTime`'s substitutions)

`str.replace(" at ", " ")` with a string pattern replaces only the first
occurrence; `str.replace(/UTC([+-]\d+)/, "GMT$1")` replaces the first
(leftmost) regex match, with `\d+` greedy. -/

/-- JavaScript `s.replace(pat, rep)` with a string pattern: replace the
first (leftmost) occurrence of `pat`, or return `s` unchanged when `pat`
does not occur. -/
def replaceFirst (pat rep : List Char) : List Char → List Char
  | [] => []
  | c :: rest =>
    if pat.isPrefixOf (c :: rest) then rep ++ (c :: rest).drop pat.length
    else c :: replaceFirst pat rep rest

/-- Try to match the regex `UTC([+-]\d+)` at the head of the list.  On
success return the captured group (`[+-]\d+`, greedy) and the remainder
after the match. -/
def matchUTCAt : List Char → Option (List Char × List Char)
  | 'U' :: 'T' :: 'C' :: c :: rest =>
    if (c = '+' || c = '-') && !(rest.takeWhile Char.isDigit).isEmpty then
      some (c :: rest.takeWhile Char.isDigit, rest.dropWhile Char.isDigit)
    else none
  | _ => none

/-- JavaScript `s.replace(/UTC([+-]\d+)/, "GMT$1")`: replace the first
(leftmost) match of the regex, substituting the captured signed integer. -/
def replaceUTC : List Char → List Char
  | [] => []
  | c :: rest =>
    match matchUTCAt (c :: rest) with
    | some (grp, after) => 'G' :: 'M' :: 'T' :: (grp ++ after)
    | none => c :: replaceUTC rest

/-- The `cleaned` string of `parseCheckTime`:
`str.replace(" at ", " ").replace(/UTC([+-]\d+)/, "GMT$1")`. -/
def cleanTime (s : List Char) : List Char :=
  replaceUTC (replaceFirst " at ".data " ".data s)

/-! ## Dynamic values -/

/-- The JavaScript values a check-in entry field can hold in this model. -/
inductive JSValue where
  | nullv : JSValue
  | undefV : JSValue
  | str : List Char → JSValue
  | num : Int → JSValue
  | boolv : Bool → JSValue
deriving DecidableEq

/-- JavaScript truthiness for `JSValue`. -/
def JSValue.truthy : JSValue → Bool
  | .nullv => false
  | .undefV => false
  | .str s => !s.isEmpty
  | .num n => n != 0
  | .boolv b => b

/-- JavaScript `v || ""`: the value itself when truthy, else the empty string. -/
def jsOrEmpty (v : JSValue) : JSValue :=
  if v.truthy then v else .str []

/-- A check-in entry `{time, staff}` as stored in the patient record. -/
structure Entry where
  time : JSValue
  staff : JSValue
deriving DecidableEq

/-- The element type of `getCheckInsArray`'s result: a genuine entry, or a
one-character string produced by `Object.values` applied to a string. -/
inductive CIElem where
  | ent : Entry → CIElem
  | strElem : Char → CIElem
deriving DecidableEq

/-- Property access `elem.time` (`undefined` on a one-character string). -/
def CIElem.time : CIElem → JSValue
  | .ent e => e.time
  | .strElem _ => .undefV

/-- Property access `elem.staff` (`undefined` on a one-character string). -/
def CIElem.staff : CIElem → JSValue
  | .ent e => e.staff
  | .strElem _ => .undefV

/-- The possible shapes of a patient's `checkIns` field: absent (or another
falsy value), an array of entries, a keyed mapping (plain object, values
enumerated in insertion order), or a primitive (string / number / boolean). -/
inductive CheckIns where
  | missing : CheckIns
  | arr : List Entry → CheckIns
  | objv : List (List Char × Entry) → CheckIns
  | strv : List Char → CheckIns
  | numv : Int → CheckIns
  | boolv : Bool → CheckIns
deriving DecidableEq

/-- A patient record, restricted to the fields the core reads.
`checkInInterval` is `none` when the field is missing. -/
structure Patient where
  checkIns : CheckIns
  checkInInterval : Option Int
deriving DecidableEq

/-! ## The four core operations -/

/-- Function `parseCheckTime(str)`: `null` for falsy or non-string input, otherwise
clean the string and delegate to the date parser `dp` (`new Date`);
`none` models both `null` and an invalid date. -/
def parseCheckTime (dp : List Char → Option Int) : JSValue → Option Int
  | .str s => if s.isEmpty then none else dp (cleanTime s)
  | _ => none

/-- Function `getCheckInsArray(patient)`: `[]` when the patient or the `checkIns`
field is falsy; the array itself when it is an array; otherwise
`Object.values(checkIns)` (values of an object, characters of a string,
`[]` for a number or boolean). -/
def getCheckInsArray : Option Patient → List CIElem
  | none => []
  | some p =>
    match p.checkIns with
    | .missing => []
    | .arr l => l.map .ent
    | .objv kvs => kvs.map (fun kv => .ent kv.2)
    | .strv s => if s.isEmpty then [] else s.map .strElem
    | .numv _ => []
    | .boolv _ => []

/-- The `display` field of a last-check result: the sentinel `"None"` or
`latest.date.toLocaleString()` for a resolved instant `t`. -/
inductive Display where
  | noneStr : Display
  | locale : Int → Display
deriving DecidableEq

/-- The record returned by `getLastCheck`. -/
structure LastCheck where
  display : Display
  date : Option Int
  staff : JSValue
  isOverdue : Bool
deriving DecidableEq

/-- The `parsed` list of `getLastCheck` before sorting: each element paired
with its parsed date, entries whose `time` fails to parse dropped. -/
def parsedChecks (dp : List Char → Option Int) (p : Option Patient) :
    List (CIElem × Int) :=
  (getCheckInsArray p).filterMap fun e =>
    (parseCheckTime dp e.time).map fun d => (e, d)

/-- JavaScript `parsed.sort((a, b) => b.date - a.date)`: sort by date, descending. -/
def sortByDateDesc (l : List (CIElem × Int)) : List (CIElem × Int) :=
  l.mergeSort fun a b => decide (b.2 ≤ a.2)

/-- Function `getLastCheck(patient)` with the call to `Date.now()` made explicit as
the parameter `now`. -/
def getLastCheck (dp : List Char → Option Int) (p : Patient) (now : Int) :
    LastCheck :=
  let arr := getCheckInsArray (some p)
  if arr.isEmpty then
    { display := .noneStr, date := none, staff := .str [], isOverdue := true }
  else
    match sortByDateDesc (parsedChecks dp (some p)) with
    | [] =>
      { display := .noneStr, date := none, staff := .str [], isOverdue := true }
    | latest :: _ =>
      let minutesSince : ℚ := ((now : ℚ) - (latest.2 : ℚ)) / (1000 * 60)
      let interval : Int := p.checkInInterval.getD 0
      { display := .locale latest.2
        date := some latest.2
        staff := jsOrEmpty latest.1.staff
        isOverdue := decide (minutesSince > (interval : ℚ)) }

/-- Function `isPatientOverdue(patient)`. -/
def isPatientOverdue (dp : List Char → Option Int) (p : Patient) (now : Int) :
    Bool :=
  (getLastCheck dp p now).isOverdue

/-- JavaScript `d.setMinutes(0, 0, 0)` on an instant `t` under a fixed local offset
`off` (milliseconds): truncate the local wall-clock time to the top of its
hour. -/
def truncHour (off t : Int) : Int :=
  t - (t + off) % 3600000

/-- The slot-construction loop of `RoundingGraph`: for `i = 23` down to `0`
push `new Date(now - i*3600000)` truncated to the top of its local hour. -/
def buildSlots (off now : Int) : List Int :=
  (List.range 24).map fun (k : Nat) =>
    truncHour off (now - (23 - (k : Int)) * 3600000)

/-- Function `hasCheckInInSlot(patient, slot)`: some extracted check-in parses to an
instant `t` with `slot ≤ t < slot + 3600000`. -/
def hasCheckInInSlot (dp : List Char → Option Int) (patient : Option Patient)
    (slot : Int) : Bool :=
  (getCheckInsArray patient).any fun ci =>
    match parseCheckTime dp ci.time with
    | none => false
    | some t => decide (slot ≤ t) && decide (t < slot + 3600000)

/-! ## Helper lemmas -/

/-- The fractional-minute comparison of `getLastCheck`, over `ℚ`, is the
integer comparison of milliseconds. -/
lemma rat_overdue_iff (now t itv : Int) :
    (((now : ℚ) - (t : ℚ)) / (1000 * 60) > (itv : ℚ)) ↔ itv * 60000 < now - t := by
  rw [gt_iff_lt, lt_div_iff₀ (by norm_num : (0 : ℚ) < 1000 * 60)]
  have h2 : ((itv : ℚ)) * (1000 * 60) = ((itv * 60000 : Int) : ℚ) := by push_cast; ring
  rw [h2, ← Int.cast_sub, Int.cast_lt]

lemma truncHour_le (off t : Int) : truncHour off t ≤ t := by
  unfold truncHour; omega

lemma truncHour_gt (off t : Int) : t - 3600000 < truncHour off t := by
  unfold truncHour; omega

lemma truncHour_mod (off t : Int) : (truncHour off t + off) % 3600000 = 0 := by
  unfold truncHour; omega

lemma truncHour_sub_mul (off t k : Int) :
    truncHour off (t - k * 3600000) = truncHour off t - k * 3600000 := by
  unfold truncHour; omega

/-- The sort comparator of `getLastCheck` is transitive. -/
lemma dateDesc_trans (a b c : CIElem × Int) :
    decide (b.2 ≤ a.2) = true → decide (c.2 ≤ b.2) = true →
    decide (c.2 ≤ a.2) = true := by
  simp only [decide_eq_true_eq]; omega

/-- The sort comparator of `getLastCheck` is total. -/
lemma dateDesc_total (a b : CIElem × Int) :
    (decide (b.2 ≤ a.2) || decide (a.2 ≤ b.2)) = true := by
  simp only [Bool.or_eq_true, decide_eq_true_eq]; omega

/-- Master lemma: when the parsed check-ins have maximum date `t`,
`getLastCheck` returns `t` as the winning instant together with the staff
of some parsed entry whose date is `t`. -/
lemma getLastCheck_of_max (dp : List Char → Option Int) (p : Patient)
    (now t : Int) (w : CIElem × Int)
    (hw : w ∈ parsedChecks dp (some p)) (hwt : w.2 = t)
    (hmax : ∀ x ∈ parsedChecks dp (some p), x.2 ≤ t) :
    ∃ v ∈ parsedChecks dp (some p), v.2 = t ∧
      getLastCheck dp p now =
        { display := .locale t, date := some t, staff := jsOrEmpty v.1.staff,
          isOverdue :=
            decide (((now : ℚ) - (t : ℚ)) / (1000 * 60)
              > ((p.checkInInterval.getD 0 : Int) : ℚ)) } := by
  have hpne : parsedChecks dp (some p) ≠ [] := by
    intro h; rw [h] at hw; exact absurd hw (List.not_mem_nil w)
  have harr : (getCheckInsArray (some p)).isEmpty = false := by
    cases h : getCheckInsArray (some p) with
    | nil => exact absurd (by simp [parsedChecks, h]) hpne
    | cons a l => rfl
  obtain ⟨v, rest, hsort⟩ :
      ∃ v rest, sortByDateDesc (parsedChecks dp (some p)) = v :: rest := by
    cases hs : sortByDateDesc (parsedChecks dp (some p)) with
    | nil =>
      exfalso
      have hlen := (List.mergeSort_perm (parsedChecks dp (some p))
        (fun a b => decide (b.2 ≤ a.2))).length_eq
      rw [show List.mergeSort (parsedChecks dp (some p))
            (fun a b => decide (b.2 ≤ a.2)) = [] from hs] at hlen
      exact hpne (List.eq_nil_of_length_eq_zero hlen.symm)
    | cons v rest => exact ⟨v, rest, rfl⟩
  have hvmem : v ∈ parsedChecks dp (some p) := by
    have hv : v ∈ sortByDateDesc (parsedChecks dp (some p)) := by
      rw [hsort]; exact List.mem_cons_self v rest
    simpa [sortByDateDesc, List.mem_mergeSort] using hv
  have hvle : v.2 ≤ t := hmax v hvmem
  have hwsort : w ∈ v :: rest := by
    rw [← hsort]
    simpa [sortByDateDesc, List.mem_mergeSort] using hw
  have hsorted : (v :: rest).Pairwise
      (fun a b : CIElem × Int => decide (b.2 ≤ a.2) = true) := by
    rw [← hsort]
    exact List.sorted_mergeSort dateDesc_trans dateDesc_total _
  have hvt : v.2 = t := by
    rcases List.mem_cons.mp hwsort with h | h
    · rw [h] at hwt; omega
    · have hle := (List.pairwise_cons.mp hsorted).1 w h
      rw [decide_eq_true_eq] at hle
      omega
  refine ⟨v, hvmem, hvt, ?_⟩
  simp only [getLastCheck, harr, hsort, Bool.false_eq_true, if_false, hvt]

/-- Lemma: `replaceFirst` rewrites the designated occurrence of `pat` when no
occurrence starts earlier. -/
lemma replaceFirst_middle (pat rep a y : List Char) (hpat : pat ≠ [])
    (h : ∀ i, i < a.length → pat.isPrefixOf ((a ++ (pat ++ y)).drop i) = false) :
    replaceFirst pat rep (a ++ (pat ++ y)) = a ++ (rep ++ y) := by
  induction a with
  | nil =>
    simp only [List.nil_append]
    cases hp : pat with
    | nil => exact absurd hp hpat
    | cons c pt =>
      have hpre : (c :: pt).isPrefixOf ((c :: pt) ++ y) = true :=
        List.isPrefixOf_iff_prefix.mpr (List.prefix_append (c :: pt) y)
      simp only [List.cons_append, replaceFirst, List.append_eq,
        ← List.cons_append, hpre, if_true]
      rw [List.drop_left]
  | cons c a' ih =>
    have h0 : pat.isPrefixOf (c :: (a' ++ (pat ++ y))) = false := by
      have := h 0 (by simp)
      simpa using this
    simp only [List.cons_append, replaceFirst, List.append_eq, h0,
      Bool.false_eq_true, if_false]
    have ih' := ih (fun i hi => by
      have := h (i + 1) (by simp; omega)
      simpa using this)
    rw [ih']

/-- The regex `UTC([+-]\d+)` matches a whole well-formed marker, capturing
the signed digit block. -/
lemma matchUTCAt_marker (sgn : Char) (ds : List Char)
    (hsgn : sgn = '+' ∨ sgn = '-') (hne : ds ≠ [])
    (hdig : ∀ c ∈ ds, c.isDigit) :
    matchUTCAt ('U' :: 'T' :: 'C' :: sgn :: ds) = some (sgn :: ds, []) := by
  have ht : ds.takeWhile Char.isDigit = ds :=
    List.takeWhile_eq_self_iff.mpr hdig
  have hd : ds.dropWhile Char.isDigit = [] :=
    List.dropWhile_eq_nil_iff.mpr hdig
  have hne' : ds.isEmpty = false := by
    cases ds with
    | nil => exact absurd rfl hne
    | cons d l => rfl
  simp only [matchUTCAt, ht, hd, hne']
  rcases hsgn with h | h <;> simp [h]

/-- Lemma: `replaceUTC` rewrites the suffix marker when no earlier position
matches the regex. -/
lemma replaceUTC_first (b u grp : List Char)
    (hu : matchUTCAt u = some (grp, []))
    (h : ∀ i, i < b.length → matchUTCAt ((b ++ u).drop i) = none) :
    replaceUTC (b ++ u) = b ++ ('G' :: 'M' :: 'T' :: grp) := by
  induction b with
  | nil =>
    cases u with
    | nil => simp [matchUTCAt] at hu
    | cons c rest =>
      simp only [List.nil_append, replaceUTC, hu]
      simp
  | cons c b' ih =>
    have h0 : matchUTCAt (c :: (b' ++ u)) = none := by
      have := h 0 (by simp)
      simpa using this
    simp only [List.cons_append, replaceUTC, List.append_eq, h0]
    have ih' := ih (fun i hi => by
      have := h (i + 1) (by simp; omega)
      simpa using this)
    rw [ih']

/-! ## Claim theorems -/

/-- Claim C1: for a patient whose parsed check-ins attain the maximal instant
`t`, `getLastCheck` decides overdue by the strict comparison
`(now − t)/60000 > checkInInterval` (interval defaulting to 0 when
missing); a check-in exactly `checkInInterval` minutes old is not overdue,
one strictly older is. -/
theorem c1_overdue_strict_boundary (dp : List Char → Option Int) (p : Patient)
    (now t : Int)
    (hmem : ∃ x ∈ parsedChecks dp (some p), x.2 = t)
    (hmax : ∀ x ∈ parsedChecks dp (some p), x.2 ≤ t) :
    ((getLastCheck dp p now).isOverdue
        = decide (((now : ℚ) - (t : ℚ)) / (1000 * 60)
            > ((p.checkInInterval.getD 0 : Int) : ℚ)))
    ∧ (now - t = p.checkInInterval.getD 0 * 60000 →
        (getLastCheck dp p now).isOverdue = false)
    ∧ (p.checkInInterval.getD 0 * 60000 < now - t →
        (getLastCheck dp p now).isOverdue = true) := by
  obtain ⟨w, hw, hwt⟩ := hmem
  obtain ⟨v, hv, hvt, heq⟩ := getLastCheck_of_max dp p now t w hw hwt hmax
  rw [heq]
  refine ⟨rfl, ?_, ?_⟩
  · intro hb
    apply decide_eq_false
    rw [rat_overdue_iff]
    omega
  · intro hb
    apply decide_eq_true
    rw [gt_iff_lt] at *
    rw [show ((1000 : ℚ) * 60) = ((1000 * 60 : ℚ)) from by norm_num]
    rw [show (((p.checkInInterval.getD 0 : Int) : ℚ)
        < ((now : ℚ) - (t : ℚ)) / (1000 * 60))
      = (((now : ℚ) - (t : ℚ)) / (1000 * 60)
        > ((p.checkInInterval.getD 0 : Int) : ℚ)) from rfl]
    rw [rat_overdue_iff]
    omega

/-- Claim C10: a future-dated latest check-in gives a negative
`minutesSince`, hence `isOverdue = false` for every non-negative
interval. -/
theorem c10_future_checkin_never_overdue (dp : List Char → Option Int)
    (p : Patient) (now t : Int)
    (hmem : ∃ x ∈ parsedChecks dp (some p), x.2 = t)
    (hmax : ∀ x ∈ parsedChecks dp (some p), x.2 ≤ t)
    (hfut : now < t) (hpos : 0 ≤ p.checkInInterval.getD 0) :
    (((now : ℚ) - (t : ℚ)) / (1000 * 60) < 0)
    ∧ (getLastCheck dp p now).isOverdue = false := by
  constructor
  · apply div_neg_of_neg_of_pos
    · have hc : (now : ℚ) < (t : ℚ) := by exact_mod_cast hfut
      linarith
    · norm_num
  · obtain ⟨w, hw, hwt⟩ := hmem
    obtain ⟨v, hv, hvt, heq⟩ := getLastCheck_of_max dp p now t w hw hwt hmax
    rw [heq]
    apply decide_eq_false
    rw [rat_overdue_iff]
    omega

/-- Claim C6: `hasCheckInInSlot` holds iff some extracted check-in parses to
an instant in the half-open window `[slot, slot + 3600000)`; entries that
fail to parse never count, and the exclusive upper bound is excluded. -/
theorem c6_slot_halfopen (dp : List Char → Option Int)
    (patient : Option Patient) (slot : Int) :
    hasCheckInInSlot dp patient slot = true ↔
      ∃ ci ∈ getCheckInsArray patient, ∃ t : Int,
        parseCheckTime dp ci.time = some t ∧ slot ≤ t ∧ t < slot + 3600000 := by
  rw [hasCheckInInSlot, List.any_eq_true]
  constructor
  · rintro ⟨ci, hci, hf⟩
    refine ⟨ci, hci, ?_⟩
    cases hpt : parseCheckTime dp ci.time with
    | none => rw [hpt] at hf; exact absurd hf (by simp)
    | some t =>
      rw [hpt] at hf
      simp only [Bool.and_eq_true, decide_eq_true_eq] at hf
      exact ⟨t, rfl, hf.1, hf.2⟩
  · rintro ⟨ci, hci, t, hpt, h1, h2⟩
    refine ⟨ci, hci, ?_⟩
    rw [hpt]
    simp only [Bool.and_eq_true, decide_eq_true_eq]
    exact ⟨h1, h2⟩

/-- Claim C7: an empty check-in history, or one in which every entry fails
normalization, yields exactly the sentinel
`{display: "None", date: null, staff: "", isOverdue: true}`. -/
theorem c7_all_unparseable_sentinel (dp : List Char → Option Int)
    (p : Patient) (now : Int)
    (h : ∀ e ∈ getCheckInsArray (some p), parseCheckTime dp e.time = none) :
    getLastCheck dp p now =
      { display := .noneStr, date := none, staff := .str [],
        isOverdue := true } := by
  have hp : parsedChecks dp (some p) = [] := by
    rw [parsedChecks, List.filterMap_eq_nil_iff]
    intro e he
    rw [h e he]
    rfl
  unfold getLastCheck
  cases harr : (getCheckInsArray (some p)).isEmpty with
  | true => simp [harr]
  | false => simp [harr, hp, sortByDateDesc]

/-- Claim C8: `getLastCheck` is a deterministic pure function of exactly the
extracted check-ins, the interval and the supplied current instant: two
patients agreeing on those observables give identical results. -/
theorem c8_pure_function_of_inputs (dp : List Char → Option Int) (now : Int)
    (p1 p2 : Patient)
    (hci : getCheckInsArray (some p1) = getCheckInsArray (some p2))
    (hint : p1.checkInInterval = p2.checkInInterval) :
    getLastCheck dp p1 now = getLastCheck dp p2 now := by
  unfold getLastCheck parsedChecks
  rw [hci, hint]

/-- Claim C9: `parseCheckTime` returns `null` for null, undefined and
non-string input, and `null` (never an error) for any string the delegated
parser rejects; in particular `"garbage"` and `null` both map to `null`. -/
theorem c9_normalize_null_handling (dp : List Char → Option Int) :
    parseCheckTime dp .nullv = none
    ∧ parseCheckTime dp .undefV = none
    ∧ (∀ n : Int, parseCheckTime dp (.num n) = none)
    ∧ (∀ b : Bool, parseCheckTime dp (.boolv b) = none)
    ∧ (∀ s : List Char, dp (cleanTime s) = none →
        parseCheckTime dp (.str s) = none)
    ∧ (dp "garbage".data = none →
        parseCheckTime dp (.str "garbage".data) = none) := by
  refine ⟨rfl, rfl, fun n => rfl, fun b => rfl, ?_, ?_⟩
  · intro s hs
    cases s with
    | nil => rfl
    | cons c l => simpa [parseCheckTime] using hs
  · intro hg
    have hct : cleanTime "garbage".data = "garbage".data := by decide
    have hie : ("garbage".data).isEmpty = false := by decide
    simp [parseCheckTime, hct, hie, hg]

/-- Claim C5: with two entries of distinct valid instants, `getLastCheck`
selects the strictly later one in either input order, and reports that
winner's staff (`""` when absent). -/
theorem c5_later_entry_wins (dp : List Char → Option Int) (itv : Option Int)
    (now i1 i2 : Int) (e1 e2 : Entry)
    (h1 : parseCheckTime dp e1.time = some i1)
    (h2 : parseCheckTime dp e2.time = some i2)
    (hlt : i1 < i2) :
    ((getLastCheck dp { checkIns := .arr [e1, e2], checkInInterval := itv }
        now).date = some i2
      ∧ (getLastCheck dp { checkIns := .arr [e1, e2], checkInInterval := itv }
        now).staff = jsOrEmpty e2.staff)
    ∧ ((getLastCheck dp { checkIns := .arr [e2, e1], checkInInterval := itv }
        now).date = some i2
      ∧ (getLastCheck dp { checkIns := .arr [e2, e1], checkInInterval := itv }
        now).staff = jsOrEmpty e2.staff) := by
  have hp1 : parsedChecks dp
      (some { checkIns := .arr [e1, e2], checkInInterval := itv })
      = [(.ent e1, i1), (.ent e2, i2)] := by
    simp [parsedChecks, getCheckInsArray, CIElem.time, h1, h2]
  have hp2 : parsedChecks dp
      (some { checkIns := .arr [e2, e1], checkInInterval := itv })
      = [(.ent e2, i2), (.ent e1, i1)] := by
    simp [parsedChecks, getCheckInsArray, CIElem.time, h1, h2]
  constructor
  · obtain ⟨v, hv, hvt, heq⟩ := getLastCheck_of_max dp
      { checkIns := .arr [e1, e2], checkInInterval := itv } now i2
      (.ent e2, i2) (by rw [hp1]; simp) rfl
      (by rw [hp1]; intro x hx; rcases List.mem_cons.mp hx with h | h
          · rw [h]; omega
          · rcases List.mem_singleton.mp h with h'
            rw [h'])
    rw [hp1] at hv
    rcases List.mem_cons.mp hv with h | h
    · rw [h] at hvt; simp at hvt; omega
    · rcases List.mem_singleton.mp h with h'
      rw [heq, h']
      exact ⟨rfl, rfl⟩
  · obtain ⟨v, hv, hvt, heq⟩ := getLastCheck_of_max dp
      { checkIns := .arr [e2, e1], checkInInterval := itv } now i2
      (.ent e2, i2) (by rw [hp2]; simp) rfl
      (by rw [hp2]; intro x hx; rcases List.mem_cons.mp hx with h | h
          · rw [h]
          · rcases List.mem_singleton.mp h with h'
            rw [h']; omega)
    rw [hp2] at hv
    rcases List.mem_cons.mp hv with h | h
    · rw [heq, h]
      exact ⟨rfl, rfl⟩
    · rcases List.mem_singleton.mp h with h'
      rw [h'] at hvt; simp at hvt; omega

/-- Closed form for the slots list: entry `j` of `buildSlots`. -/
lemma buildSlots_getD (off now : Int) (j : Nat) (hj : j < 24) :
    (buildSlots off now).getD j 0
      = truncHour off now - (23 - (j : Int)) * 3600000 := by
  rw [buildSlots]
  simp only [List.getD_eq_getElem?_getD, List.getElem?_map,
    List.getElem?_range hj, Option.map_some', Option.getD_some]
  rw [truncHour_sub_mul]

/-- Claim C3: `buildSlots` returns exactly 24 slot starts, hour-aligned in
local time, consecutive slots exactly 3,600,000 ms apart, oldest first,
with the last slot's start ≤ `now` and > `now − 3600000`. -/
theorem c3_buildSlots_shape (off now : Int) :
    (buildSlots off now).length = 24
    ∧ (∀ j : Nat, j < 23 →
        (buildSlots off now).getD (j + 1) 0
          = (buildSlots off now).getD j 0 + 3600000)
    ∧ (∀ s ∈ buildSlots off now, (s + off) % 3600000 = 0)
    ∧ (buildSlots off now).getD 23 0 = truncHour off now
    ∧ truncHour off now ≤ now
    ∧ now - 3600000 < truncHour off now := by
  refine ⟨by simp [buildSlots], ?_, ?_, ?_,
    truncHour_le off now, truncHour_gt off now⟩
  · intro j hj
    rw [buildSlots_getD off now (j + 1) (by omega),
      buildSlots_getD off now j (by omega)]
    push_cast
    ring
  · intro s hs
    rw [buildSlots] at hs
    simp only [List.mem_map, List.mem_range] at hs
    obtain ⟨k, hk, rfl⟩ := hs
    exact truncHour_mod off _
  · rw [buildSlots_getD off now 23 (by omega)]
    norm_num

/-- The two substitutions of `cleanTime` on a canonical timestamp whose
designated `" at "` is its first occurrence and whose trailing `UTC±digits`
marker is the first regex match. -/
lemma cleanTime_canonical (a b ds : List Char) (sgn : Char)
    (hsgn : sgn = '+' ∨ sgn = '-') (hne : ds ≠ [])
    (hdig : ∀ c ∈ ds, c.isDigit)
    (hA : ∀ i, i < a.length →
      (" at ".data).isPrefixOf
        ((a ++ (" at ".data ++ (b ++ ('U' :: 'T' :: 'C' :: sgn :: ds)))).drop i)
        = false)
    (hB : ∀ i, i < (a ++ (" ".data ++ b)).length →
      matchUTCAt
        (((a ++ (" ".data ++ b)) ++ ('U' :: 'T' :: 'C' :: sgn :: ds)).drop i)
        = none) :
    cleanTime (a ++ (" at ".data ++ (b ++ ('U' :: 'T' :: 'C' :: sgn :: ds))))
      = a ++ (" ".data ++ (b ++ ('G' :: 'M' :: 'T' :: sgn :: ds))) := by
  unfold cleanTime
  rw [replaceFirst_middle " at ".data " ".data a
    (b ++ ('U' :: 'T' :: 'C' :: sgn :: ds)) (by decide) hA]
  have hrepl := replaceUTC_first (a ++ (" ".data ++ b))
    ('U' :: 'T' :: 'C' :: sgn :: ds) (sgn :: ds)
    (matchUTCAt_marker sgn ds hsgn hne hdig) hB
  simp only [List.append_assoc] at hrepl ⊢
  exact hrepl

/-- Claim C2: `parseCheckTime` replaces the (first) `" at "` with a space and
the (first) `UTC±digits` marker with `GMT` plus the identical signed
integer, then delegates to the general-purpose date parser; in particular
the documented example normalizes to parsing
`"November 20, 2025 12:55:25 AM GMT-5"` directly. -/
theorem c2_normalize_substitution (dp : List Char → Option Int)
    (a b ds : List Char) (sgn : Char)
    (hsgn : sgn = '+' ∨ sgn = '-') (hne : ds ≠ [])
    (hdig : ∀ c ∈ ds, c.isDigit)
    (hA : ∀ i, i < a.length →
      (" at ".data).isPrefixOf
        ((a ++ (" at ".data ++ (b ++ ('U' :: 'T' :: 'C' :: sgn :: ds)))).drop i)
        = false)
    (hB : ∀ i, i < (a ++ (" ".data ++ b)).length →
      matchUTCAt
        (((a ++ (" ".data ++ b)) ++ ('U' :: 'T' :: 'C' :: sgn :: ds)).drop i)
        = none) :
    parseCheckTime dp
        (.str (a ++ (" at ".data ++ (b ++ ('U' :: 'T' :: 'C' :: sgn :: ds)))))
      = dp (a ++ (" ".data ++ (b ++ ('G' :: 'M' :: 'T' :: sgn :: ds))))
    ∧ parseCheckTime dp (.str "November 20, 2025 at 12:55:25 AM UTC-5".data)
      = dp "November 20, 2025 12:55:25 AM GMT-5".data := by
  constructor
  · have h4 : (" at ".data).length = 4 := by decide
    have hs : (a ++ (" at ".data ++ (b ++ ('U' :: 'T' :: 'C' :: sgn :: ds)))).isEmpty
        = false := by
      cases hfoo : a ++ (" at ".data ++ (b ++ ('U' :: 'T' :: 'C' :: sgn :: ds))) with
      | nil =>
        exfalso
        have := congrArg List.length hfoo
        simp [List.length_append, h4] at this
      | cons x l => rfl
    simp only [parseCheckTime, hs, Bool.false_eq_true, if_false]
    rw [cleanTime_canonical a b ds sgn hsgn hne hdig hA hB]
  · have hct : cleanTime "November 20, 2025 at 12:55:25 AM UTC-5".data
        = "November 20, 2025 12:55:25 AM GMT-5".data := by decide
    have hie : ("November 20, 2025 at 12:55:25 AM UTC-5".data).isEmpty = false := by
      decide
    simp only [parseCheckTime, hie, Bool.false_eq_true, if_false, hct]

/-- Claim C4, counterexample: a truthy string-valued `checkIns` — a shape that
is neither absent, an array, nor a keyed mapping — does NOT extract to the
empty sequence: `Object.values` of a non-empty string yields its
characters. -/
theorem c4_counterexample :
    getCheckInsArray
        (some { checkIns := .strv ['a'], checkInInterval := none }) ≠ [] := by
  decide

/-- Claim C4, amended: extraction returns `[]` for an absent patient or
missing `checkIns`, the array itself for an array, the mapping's values for
a keyed mapping, and `[]` for numeric, boolean or empty-string shapes — but
a non-empty string shape yields one element per character, not `[]`. -/
theorem c4_extract_shapes :
    getCheckInsArray none = []
    ∧ (∀ itv, getCheckInsArray
        (some { checkIns := .missing, checkInInterval := itv }) = [])
    ∧ (∀ l itv, getCheckInsArray
        (some { checkIns := .arr l, checkInInterval := itv })
        = l.map CIElem.ent)
    ∧ (∀ kvs itv, getCheckInsArray
        (some { checkIns := .objv kvs, checkInInterval := itv })
        = kvs.map (fun kv => CIElem.ent kv.2))
    ∧ (∀ n itv, getCheckInsArray
        (some { checkIns := .numv n, checkInInterval := itv }) = [])
    ∧ (∀ b itv, getCheckInsArray
        (some { checkIns := .boolv b, checkInInterval := itv }) = [])
    ∧ (∀ itv, getCheckInsArray
        (some { checkIns := .strv [], checkInInterval := itv }) = [])
    ∧ (∀ s itv, s ≠ [] → getCheckInsArray
        (some { checkIns := .strv s, checkInInterval := itv })
        = s.map CIElem.strElem) := by
  refine ⟨rfl, fun itv => rfl, fun l itv => rfl, fun kvs itv => rfl,
    fun n itv => rfl, fun b itv => rfl, fun itv => rfl, ?_⟩
  intro s itv hs
  cases s with
  | nil => exact absurd rfl hs
  | cons c l => rfl

/-! ## Concrete witnesses -/

/-- A date parser that rejects every string. -/
def dpReject : List Char → Option Int := fun _ => none

/-- A tiny date parser for witnesses: `"x"` parses to instant 100 and
`"y"` to instant 200. -/
def dpToy : List Char → Option Int := fun s =>
  if s = ['x'] then some 100 else if s = ['y'] then some 200 else none

/-- A patient with one parseable check-in (instant 100) and a 3-minute
interval. -/
def toyPatient : Patient :=
  { checkIns := .arr [{ time := .str ['x'], staff := .str ['A'] }],
    checkInInterval := some 3 }

/-- An entry parsing to instant 100 with staff `"A"`. -/
def entA : Entry := { time := .str ['x'], staff := .str ['A'] }

/-- An entry parsing to instant 200 with staff `"B"`. -/
def entB : Entry := { time := .str ['y'], staff := .str ['B'] }

/-- Witness for C1: a check-in exactly 3 minutes old is not overdue; one
millisecond older is overdue. -/
theorem c1_witness :
    (getLastCheck dpToy toyPatient (100 + 3 * 60000)).isOverdue = false
    ∧ (getLastCheck dpToy toyPatient (100 + 3 * 60000 + 1)).isOverdue = true :=
  ⟨(c1_overdue_strict_boundary dpToy toyPatient (100 + 3 * 60000) 100
      (by decide) (by decide)).2.1 (by decide),
   (c1_overdue_strict_boundary dpToy toyPatient (100 + 3 * 60000 + 1) 100
      (by decide) (by decide)).2.2 (by decide)⟩

/-- Witness for C2 at the documented example string. -/
theorem c2_witness :
    parseCheckTime dpReject
        (.str ("November 20, 2025".data ++ (" at ".data ++ ("12:55:25 AM ".data
          ++ ('U' :: 'T' :: 'C' :: '-' :: ['5'])))))
      = dpReject ("November 20, 2025".data ++ (" ".data ++ ("12:55:25 AM ".data
          ++ ('G' :: 'M' :: 'T' :: '-' :: ['5']))))
    ∧ parseCheckTime dpReject
        (.str "November 20, 2025 at 12:55:25 AM UTC-5".data)
      = dpReject "November 20, 2025 12:55:25 AM GMT-5".data :=
  c2_normalize_substitution dpReject "November 20, 2025".data
    "12:55:25 AM ".data ['5'] '-' (Or.inr rfl) (by decide) (by decide)
    (by decide) (by decide)

/-- Witness for C3 at a concrete instant: the second-oldest slot starts
exactly one hour after the oldest. -/
theorem c3_witness :
    (buildSlots 0 7200123).getD 1 0 = (buildSlots 0 7200123).getD 0 0 + 3600000 :=
  (c3_buildSlots_shape 0 7200123).2.1 0 (by decide)

/-- Witness for C4 (amended): a two-character string `checkIns` extracts to
its two characters. -/
theorem c4_witness :
    getCheckInsArray
        (some { checkIns := .strv ['a', 'b'], checkInInterval := none })
      = ['a', 'b'].map CIElem.strElem :=
  c4_extract_shapes.2.2.2.2.2.2.2 ['a', 'b'] none (by decide)

/-- Witness for C5: the entry with the later instant wins in both input
orders and its staff is reported. -/
theorem c5_witness :
    ((getLastCheck dpToy
        { checkIns := .arr [entA, entB], checkInInterval := some 60 } 0).date
        = some 200
      ∧ (getLastCheck dpToy
        { checkIns := .arr [entA, entB], checkInInterval := some 60 } 0).staff
        = jsOrEmpty entB.staff)
    ∧ ((getLastCheck dpToy
        { checkIns := .arr [entB, entA], checkInInterval := some 60 } 0).date
        = some 200
      ∧ (getLastCheck dpToy
        { checkIns := .arr [entB, entA], checkInInterval := some 60 } 0).staff
        = jsOrEmpty entB.staff) :=
  c5_later_entry_wins dpToy (some 60) 0 100 200 entA entB
    (by decide) (by decide) (by decide)

/-- Witness for C7: a patient whose single entry fails to parse resolves to
the "None"/overdue sentinel. -/
theorem c7_witness :
    getLastCheck dpReject
        { checkIns := .arr [{ time := .str ['q'], staff := .undefV }],
          checkInInterval := some 60 } 0
      = { display := .noneStr, date := none, staff := .str [],
          isOverdue := true } :=
  c7_all_unparseable_sentinel dpReject
    { checkIns := .arr [{ time := .str ['q'], staff := .undefV }],
      checkInInterval := some 60 } 0 (by decide)

/-- Witness for C8: two different `checkIns` representations with equal
extraction and equal interval give identical results. -/
theorem c8_witness :
    getLastCheck dpReject { checkIns := .arr [], checkInInterval := some 5 } 0
      = getLastCheck dpReject
        { checkIns := .objv [], checkInInterval := some 5 } 0 :=
  c8_pure_function_of_inputs dpReject 0
    { checkIns := .arr [], checkInInterval := some 5 }
    { checkIns := .objv [], checkInInterval := some 5 } (by decide) rfl

/-- Witness for C9: `null` input and the string `"garbage"` both normalize
to `null`. -/
theorem c9_witness :
    parseCheckTime dpReject .nullv = none
    ∧ parseCheckTime dpReject (.str "garbage".data) = none :=
  ⟨(c9_normalize_null_handling dpReject).1,
   (c9_normalize_null_handling dpReject).2.2.2.2.2 rfl⟩

/-- Witness for C10: a check-in 50 ms in the future of `now` is not
overdue. -/
theorem c10_witness :
    ((((50 : Int) : ℚ) - ((100 : Int) : ℚ)) / (1000 * 60) < 0)
    ∧ (getLastCheck dpToy toyPatient 50).isOverdue = false :=
  c10_future_checkin_never_overdue dpToy toyPatient 50 100
    (by decide) (by decide) (by decide) (by decide)

end MediRound
